import Mathlib

/-!
Verification of the chess-app session controller and AI advisor.

The repository is a single-page chess application.  Its own code is:
  * `App.tsx` (here: the controller model) — owns the rules-engine instance
    (`game`), the selection state, the captured-piece ledgers, the thinking
    flag and the analysis text, and wires UI events to the engine; and
  * `geminiService.ts` (here: `getBestMove`) — one request to a generative-AI
    service plus parsing of its response.

The chess rules engine (chess.js) and the JSON parser are external
collaborators; they are modelled abstractly:
  * the engine as a structure `Rules B` of the operations the app calls,
    over an abstract board type `B`;
  * an engine *instance* as `EnginePos B`: a board plus the instance's
    internal move history (chess.js records each move made on an instance and
    `undo()` reverses the most recent one; a fresh instance built from a FEN
    string carries the same board but an empty internal history — FEN does
    not serialize move history);
  * `JSON.parse` by its outcome: `some j` for a successful parse producing
    the JSON value `j`, `none` for a thrown syntax error.
-/

namespace Classy

inductive PieceColor where
  | w
  | b
deriving DecidableEq, Repr

inductive PieceType where
  | p
  | n
  | b
  | r
  | q
  | k
deriving DecidableEq, Repr

/-- Model of `Piece` from types.ts: a type and a color. -/
structure Piece where
  type : PieceType
  color : PieceColor
deriving DecidableEq, Repr

/-- The argument of `makeMove` in App.tsx: either a notation string or a
structured `\x7b from, to, promotion \x7d` object. -/
inductive MoveInput where
  | sanStr : String → MoveInput
  | coords : String → String → Option String → MoveInput
deriving DecidableEq, Repr

/-- The move record chess.js returns from a successful `move()` call, with the
fields the app reads: `from`/`to`, the mover's color, the captured piece type
when the move captures, and the SAN text that `history()` reports. -/
structure MoveRec where
  fromSq : String
  toSq : String
  color : PieceColor
  captured : Option PieceType
  san : String
deriving DecidableEq, Repr

/-- The chess.js operations App.tsx calls, over an abstract board type `B`
(a board is the position data a FEN string serializes).  `move` returns
`none` when the input is illegal or unparseable: chess.js either returns a
falsy value or throws, and the app's `makeMove` maps both to failure through
its try/catch. -/
structure Rules (B : Type) where
  /-- Models `new Chess()`: the standard starting position. -/
  init : B
  /-- Models `game.move(moveData)` on the board: `some (record, board2)` on success. -/
  move : B → MoveInput → Option (MoveRec × B)
  /-- Models `game.get(square)`. -/
  get : B → String → Option Piece
  /-- Models `game.turn()`. -/
  turn : B → PieceColor
  /-- Models `game.moves(\x7b square, verbose: true \x7d)`. -/
  movesFrom : B → String → List MoveRec
  /-- Models `game.moves()`: SAN strings of the legal moves. -/
  movesSan : B → List String
  /-- Models `game.isGameOver()`. -/
  isGameOver : B → Bool

/-- A chess.js instance: its board plus its internal history.  Each history
entry keeps the board before the move (what `undo()` restores) and the SAN
text (what `history()` reports). -/
structure EnginePos (B : Type) where
  board : B
  hist : List (B × String)
deriving DecidableEq, Repr

/-- Models `new Chess(p.fen())`: FEN serialization round-trips the board, and the
fresh instance has an empty internal history. -/
def engFromFen {B : Type} (p : EnginePos B) : EnginePos B :=
  { board := p.board, hist := [] }

/-- Models `p.move(m)` on an instance: on success the new instance records the move. -/
def engMove {B : Type} (r : Rules B) (p : EnginePos B) (m : MoveInput) :
    Option (MoveRec × EnginePos B) :=
  match r.move p.board m with
  | none => none
  | some (mv, b) => some (mv, { board := b, hist := (p.board, mv.san) :: p.hist })

/-- Models `p.undo()`: reverses the most recent move recorded on this instance;
a no-op when the instance's internal history is empty. -/
def engUndo {B : Type} (p : EnginePos B) : EnginePos B :=
  match p.hist with
  | [] => p
  | (b, _) :: rest => { board := b, hist := rest }

/-- Models `p.history()`: SAN list, oldest first. -/
def engHistory {B : Type} (p : EnginePos B) : List String :=
  (p.hist.map Prod.snd).reverse

/-- The React state of `App`: the engine instance and the six other
`useState` cells. -/
structure AppState (B : Type) where
  game : EnginePos B
  selectedSquare : Option String
  validMoves : List String
  isAiThinking : Bool
  aiAnalysis : Option String
  capturedByWhite : List Piece
  capturedByBlack : List Piece
deriving DecidableEq, Repr

/-- The `useState` initializers of `App`. -/
def initState {B : Type} (r : Rules B) : AppState B :=
  { game := { board := r.init, hist := [] }
  , selectedSquare := none
  , validMoves := []
  , isAiThinking := false
  , aiAnalysis := none
  , capturedByWhite := []
  , capturedByBlack := [] }

/-- Model of `resetGame` (App.tsx lines 20–28): fresh engine, clear selection, valid
moves, analysis and both ledgers.  It does not touch `isAiThinking`. -/
def resetGame {B : Type} (r : Rules B) (s : AppState B) : AppState B :=
  { s with
    game := { board := r.init, hist := [] }
  , selectedSquare := none
  , validMoves := []
  , aiAnalysis := none
  , capturedByWhite := []
  , capturedByBlack := [] }

/-- Model of `handleCapture` (lines 30–39): when the move record reports a capture,
append `\x7b type: captured, color: opposite of mover \x7d` to the mover's
ledger. -/
def handleCapture {B : Type} (mv : MoveRec) (s : AppState B) : AppState B :=
  match mv.captured with
  | none => s
  | some ct =>
      let piece : Piece :=
        { type := ct
        , color := if mv.color = PieceColor.w then PieceColor.b else PieceColor.w }
      if mv.color = PieceColor.w then
        { s with capturedByWhite := s.capturedByWhite ++ [piece] }
      else
        { s with capturedByBlack := s.capturedByBlack ++ [piece] }

/-- Model of `makeMove` (lines 41–57): build a fresh engine instance from the current
FEN, attempt the move on the copy; on success commit the copy, do capture
bookkeeping and clear the selection; on failure (falsy result or thrown
error) return false with the state untouched. -/
def makeMove {B : Type} (r : Rules B) (s : AppState B) (moveData : MoveInput) :
    Bool × AppState B :=
  match engMove r (engFromFen s.game) moveData with
  | some (mv, gameCopy) =>
      let s1 := { s with game := gameCopy }
      let s2 := handleCapture mv s1
      (true, { s2 with selectedSquare := none, validMoves := [] })
  | none => (false, s)

/-- The selection branch of `onSquareClick` (lines 79–88): select the square
when it holds a piece of the side to move (recording its legal destinations),
otherwise clear the selection. -/
def selectPhase {B : Type} (r : Rules B) (s : AppState B) (square : String) :
    AppState B :=
  match r.get s.game.board square with
  | some piece =>
      if piece.color = r.turn s.game.board then
        { s with selectedSquare := some square,
                 validMoves := (r.movesFrom s.game.board square).map MoveRec.toSq }
      else
        { s with selectedSquare := none, validMoves := [] }
  | none => { s with selectedSquare := none, validMoves := [] }

/-- Model of `onSquareClick` (lines 59–89): no-op when the game is over or the AI is
thinking; clicking the selected square deselects; clicking elsewhere with a
selection attempts the move (promotion defaulted to queen) and on failure
falls through to a new selection attempt. -/
def onSquareClick {B : Type} (r : Rules B) (s : AppState B) (square : String) :
    AppState B :=
  if r.isGameOver s.game.board || s.isAiThinking then s
  else
    match s.selectedSquare with
    | some sel =>
        if sel = square then
          { s with selectedSquare := none, validMoves := [] }
        else
          match makeMove r s (MoveInput.coords sel square (some "q")) with
          | (true, s1) => s1
          | (false, s1) => selectPhase r s1 square
    | none => selectPhase r s square

/-- Model of `undoMove` (lines 128–133): build a fresh instance from the current FEN,
call `undo()` on it, install the copy as the game and clear the analysis
text.  The fresh instance has an empty internal history, so its `undo()` is
a no-op on the board. -/
def undoMove {B : Type} (s : AppState B) : AppState B :=
  let gameCopy := engUndo (engFromFen s.game)
  { s with game := gameCopy, aiAnalysis := none }

/-- The advisor's declared response shape (`AIMoveResponse` in types.ts). -/
structure AIMoveResponse where
  move : String
  explanation : String
deriving DecidableEq, Repr

/-- The outcome of `await getBestMove(...)` inside `triggerAiMove`: either a
response value, or a thrown service/network error. -/
inductive AiOutcome where
  | success : AIMoveResponse → AiOutcome
  | failure : AiOutcome
deriving DecidableEq, Repr

/-- Model of `triggerAiMove` (lines 91–126), as the state transformation the whole
user action performs once the awaited call and the timeout callback have
both run.  `randIdx % length` models `Math.floor(Math.random() * length)`:
both range over exactly the indices `0 .. length - 1`.  The timeout callback
closes over the `game` value captured at trigger time, which equals the
state's game at that point because the failed attempt left it unchanged. -/
def triggerAiMove {B : Type} (r : Rules B) (s : AppState B)
    (outcome : AiOutcome) (randIdx : Nat) : AppState B :=
  if r.isGameOver s.game.board || s.isAiThinking then s
  else
    let s1 := { s with isAiThinking := true,
                       aiAnalysis := some "Analyzing board state..." }
    match outcome with
    | AiOutcome.failure =>
        { s1 with isAiThinking := false,
                  aiAnalysis := some "Error communicating with AI." }
    | AiOutcome.success resp =>
        if resp.move ≠ "" then
          let s2 := { s1 with aiAnalysis := some resp.explanation }
          match makeMove r s2 (MoveInput.sanStr resp.move) with
          | (true, s3) => { s3 with isAiThinking := false }
          | (false, s3) =>
              let s4 := { s3 with
                aiAnalysis :=
                  some "AI suggested an illegal move. Fallback logic triggered." }
              let randomMoves := r.movesSan s4.game.board
              let s5 :=
                if h : 0 < randomMoves.length then
                  (makeMove r s4 (MoveInput.sanStr
                    (randomMoves.get ⟨randIdx % randomMoves.length,
                      Nat.mod_lt _ h⟩))).2
                else s4
              { s5 with isAiThinking := false }
        else
          { s1 with isAiThinking := false,
                    aiAnalysis := some "AI couldn't find a move." }

/-! ### The AI advisor (geminiService.ts) -/

/-- JSON values, as `JSON.parse` produces them. -/
inductive Json where
  | null : Json
  | boolVal : Bool → Json
  | num : Int → Json
  | str : String → Json
  | arr : List Json → Json
  | obj : List (String × Json) → Json
deriving Repr

/-- JavaScript property access on a parsed JSON value: `some v` when the
value is an object with the field, `none` (undefined) otherwise. -/
def jsGet (j : Json) (key : String) : Option Json :=
  match j with
  | Json.obj fields => fields.lookup key
  | _ => none

/-- The sentinel `getBestMove` returns when `JSON.parse` throws. -/
def sentinelResponse : Json :=
  Json.obj [("move", Json.str "")
  , ("explanation", Json.str "I couldn't calculate a move right now.")]

/-- The response handling of `getBestMove` (geminiService.ts lines 35–42):
`JSON.parse(jsonStr) as AIMoveResponse` inside try/catch.  The argument is
the parse outcome of the trimmed response text (`JSON.parse` is the external
runtime parser; `none` means it threw).  Note the cast performs no runtime
validation: a successfully parsed value is returned as-is, whatever its
shape.  The function is total — it never raises to its caller. -/
def getBestMove (parseOutcome : Option Json) : Json :=
  match parseOutcome with
  | some j => j
  | none => sentinelResponse

/-! ### Concrete engine instances for evaluating the controller

`demoRules` is a small executable instance of the engine interface, used to
run the controller on explicit inputs: the board records the SAN strings of
the accepted moves, `legal` is the (fixed) legal-move list, `over` the
game-over flag, and `cap` the capture a successful move reports. -/

def demoRules (legal : List String) (over : Bool) (cap : Option PieceType) :
    Rules (List String) :=
  { init := []
  , move := fun b m =>
      match m with
      | MoveInput.sanStr str =>
          if str ∈ legal then
            some ({ fromSq := ""
                  , toSq := ""
                  , color := if b.length % 2 = 0 then PieceColor.w else PieceColor.b
                  , captured := cap
                  , san := str }, b ++ [str])
          else none
      | MoveInput.coords _ _ _ => none
  , get := fun _ _ => none
  , turn := fun b => if b.length % 2 = 0 then PieceColor.w else PieceColor.b
  , movesFrom := fun _ _ => []
  , movesSan := fun _ => legal
  , isGameOver := fun _ => over }

/-- An ordinary mid-game instance: not over, two legal moves. -/
def demoPlain : Rules (List String) := demoRules ["e4", "Nf3"] false none

/-- A terminal-draw instance in which a legal move remains, as chess.js
exhibits for draws by insufficient material or the fifty-move rule:
`isGameOver()` is true, yet `move()` — which performs no game-over check —
still accepts the remaining legal moves (e.g. a king move in a
king-versus-king position). -/
def demoDrawn : Rules (List String) := demoRules ["Kb2"] true none

/-- An instance whose accepted move reports a pawn capture. -/
def demoCap : Rules (List String) := demoRules ["exd5"] false (some PieceType.p)

/-! ### Helper lemmas -/

@[simp] theorem handleCapture_game {B : Type} (mv : MoveRec) (s : AppState B) :
    (handleCapture mv s).game = s.game := by
  cases h : mv.captured <;> simp [handleCapture, h]
  split <;> rfl

@[simp] theorem handleCapture_selectedSquare {B : Type} (mv : MoveRec)
    (s : AppState B) : (handleCapture mv s).selectedSquare = s.selectedSquare := by
  cases h : mv.captured <;> simp [handleCapture, h]
  split <;> rfl

@[simp] theorem handleCapture_validMoves {B : Type} (mv : MoveRec)
    (s : AppState B) : (handleCapture mv s).validMoves = s.validMoves := by
  cases h : mv.captured <;> simp [handleCapture, h]
  split <;> rfl

@[simp] theorem handleCapture_isAiThinking {B : Type} (mv : MoveRec)
    (s : AppState B) : (handleCapture mv s).isAiThinking = s.isAiThinking := by
  cases h : mv.captured <;> simp [handleCapture, h]
  split <;> rfl

@[simp] theorem handleCapture_aiAnalysis {B : Type} (mv : MoveRec)
    (s : AppState B) : (handleCapture mv s).aiAnalysis = s.aiAnalysis := by
  cases h : mv.captured <;> simp [handleCapture, h]
  split <;> rfl

theorem makeMove_of_none {B : Type} (r : Rules B) (s : AppState B) (m : MoveInput)
    (h : r.move s.game.board m = none) :
    makeMove r s m = (false, s) := by
  simp [makeMove, engMove, engFromFen, h]

theorem makeMove_of_some {B : Type} (r : Rules B) (s : AppState B) (m : MoveInput)
    (mv : MoveRec) (b : B) (h : r.move s.game.board m = some (mv, b)) :
    makeMove r s m =
      (true,
        { handleCapture mv
            { s with game := { board := b, hist := [(s.game.board, mv.san)] } } with
          selectedSquare := none, validMoves := [] }) := by
  simp [makeMove, engMove, engFromFen, h]

/-! ### Claim theorems -/

/-- C1.  The claim says `undo()` returns the Position to exactly the position
before the last accepted move and removes the last history entry.  In the
code, `undoMove` builds the copy with `new Chess(game.fen())`: the copy
carries the same board but an *empty* internal history, so `gameCopy.undo()`
is a no-op on the board.  Consequently `undoMove` never changes the board at
all — it only empties the engine history and clears the analysis text.  The
second conjunct evaluates the code at the failing input (one accepted move
`e4` from the initial position, then undo): the board stays at the
post-move position instead of returning to the initial one. -/
theorem undoMove_never_restores_position :
    (∀ (B : Type) (s : AppState B),
        (undoMove s).game.board = s.game.board ∧
        (undoMove s).game.hist = [] ∧
        (undoMove s).aiAnalysis = none) ∧
    ((undoMove (makeMove demoPlain (initState demoPlain)
        (MoveInput.sanStr "e4")).2).game.board = ["e4"] ∧
      (["e4"] : List String) ≠ demoPlain.init) := by
  refine ⟨fun B s => ⟨rfl, rfl, rfl⟩, by decide, by decide⟩

/-- C2 counterexample.  A payload that is valid JSON but does not conform to
the two-required-string-field shape (the `explanation` field is missing):
the claim says `getBestMove` returns the sentinel whose `move` field is the
empty string, but the code's `JSON.parse(...) as AIMoveResponse` performs no
shape validation and returns the parsed object verbatim — its `move` field
is "Nf3", not "". -/
def movOnlyPayload : Json := Json.obj [("move", Json.str "Nf3")]

theorem getBestMove_nonconforming_passthrough :
    getBestMove (some movOnlyPayload) = movOnlyPayload ∧
    jsGet (getBestMove (some movOnlyPayload)) "move" = some (Json.str "Nf3") ∧
    jsGet (getBestMove (some movOnlyPayload)) "explanation" = none ∧
    Json.str "Nf3" ≠ Json.str "" := by
  refine ⟨rfl, rfl, rfl, fun h => ?_⟩
  have : "Nf3" = "" := Json.str.inj h
  simp at this

/-- C2 amended: `getBestMove` never raises (it is total); when `JSON.parse`
throws — the response text is not JSON — it returns the sentinel
`\x7b move: "", explanation: <non-empty apology> \x7d`; but a payload that
parses as JSON is returned as-is with no shape validation, even when it does
not conform to the two-required-string-field shape. -/
theorem getBestMove_soft_failure :
    getBestMove none = sentinelResponse ∧
    jsGet (getBestMove none) "move" = some (Json.str "") ∧
    jsGet (getBestMove none) "explanation" =
      some (Json.str "I couldn't calculate a move right now.") ∧
    "I couldn't calculate a move right now." ≠ "" ∧
    (∀ j : Json, getBestMove (some j) = j) := by
  refine ⟨rfl, rfl, rfl, by decide, fun j => rfl⟩

/-- C3.  When the engine rejects the move input (illegal or unparseable —
chess.js returns a falsy value or throws, both mapped to rejection by the
try/catch), `makeMove` returns false and the state is returned exactly as it
was: Position, history, captured ledgers and selection unchanged. -/
theorem makeMove_illegal_no_mutation {B : Type} (r : Rules B) (s : AppState B)
    (m : MoveInput) (h : r.move s.game.board m = none) :
    makeMove r s m = (false, s) :=
  makeMove_of_none r s m h

theorem makeMove_illegal_no_mutation_witness :
    demoPlain.move (initState demoPlain).game.board (MoveInput.sanStr "Zz9") = none ∧
    makeMove demoPlain (initState demoPlain) (MoveInput.sanStr "Zz9") =
      (false, initState demoPlain) :=
  ⟨by decide,
   makeMove_illegal_no_mutation demoPlain (initState demoPlain)
     (MoveInput.sanStr "Zz9") (by decide)⟩

/-- C7.  `resetGame` replaces the game with a fresh engine instance at the
standard starting position (`new Chess()`), and clears selection, legal
destinations, history, both captured ledgers and the analysis text.  It is a
total function of the state — unconditional, always succeeds. -/
theorem resetGame_clears_everything {B : Type} (r : Rules B) (s : AppState B) :
    (resetGame r s).game.board = r.init ∧
    engHistory (resetGame r s).game = [] ∧
    (resetGame r s).selectedSquare = none ∧
    (resetGame r s).validMoves = [] ∧
    (resetGame r s).aiAnalysis = none ∧
    (resetGame r s).capturedByWhite = [] ∧
    (resetGame r s).capturedByBlack = [] :=
  ⟨rfl, rfl, rfl, rfl, rfl, rfl, rfl⟩

/-- C4 counterexample.  The claim says applying any move to a terminal
Position via the Controller fails.  But `makeMove` performs no game-over
check: rejection can only come from the engine's own `move()`, and chess.js
still accepts legal moves in terminal draw positions (insufficient material,
fifty-move rule).  On `demoDrawn` — a terminal position with a remaining
legal king move — `makeMove` succeeds and mutates the state. -/
theorem makeMove_accepts_in_terminal_draw :
    demoDrawn.isGameOver (initState demoDrawn).game.board = true ∧
    (makeMove demoDrawn (initState demoDrawn) (MoveInput.sanStr "Kb2")).1 = true ∧
    (makeMove demoDrawn (initState demoDrawn) (MoveInput.sanStr "Kb2")).2 ≠
      initState demoDrawn := by
  refine ⟨rfl, by decide, by decide⟩

/-- C4 amended.  On a terminal Position, `onSquareClick` and `triggerAiMove`
are no-ops (their first-line game-over guards); `makeMove` itself adds no
game-over check, so a move application against a terminal Position fails
exactly when the engine rejects the move — which covers checkmate and
stalemate, where no legal move exists, but not terminal draws with legal
moves remaining. -/
theorem terminal_position_gating {B : Type} (r : Rules B) (s : AppState B)
    (h : r.isGameOver s.game.board = true) :
    (∀ sq, onSquareClick r s sq = s) ∧
    (∀ o i, triggerAiMove r s o i = s) ∧
    (∀ m, r.move s.game.board m = none → makeMove r s m = (false, s)) := by
  refine ⟨fun sq => ?_, fun o i => ?_, fun m hm => makeMove_of_none r s m hm⟩
  · simp [onSquareClick, h]
  · simp [triggerAiMove, h]

theorem terminal_position_gating_witness :
    demoDrawn.isGameOver (initState demoDrawn).game.board = true ∧
    onSquareClick demoDrawn (initState demoDrawn) "e2" = initState demoDrawn ∧
    triggerAiMove demoDrawn (initState demoDrawn) AiOutcome.failure 0 =
      initState demoDrawn ∧
    makeMove demoDrawn (initState demoDrawn) (MoveInput.sanStr "Zz9") =
      (false, initState demoDrawn) :=
  ⟨rfl,
   (terminal_position_gating demoDrawn (initState demoDrawn) rfl).1 "e2",
   (terminal_position_gating demoDrawn (initState demoDrawn) rfl).2.1
     AiOutcome.failure 0,
   (terminal_position_gating demoDrawn (initState demoDrawn) rfl).2.2
     (MoveInput.sanStr "Zz9") (by decide)⟩

/-- C6.  On an accepted move, `handleCapture` runs on the committed state:
when the engine's move record reports a captured piece, exactly one entry —
with the captured piece's type and the opponent's color — is appended to the
ledger of the mover's color, and the other ledger is untouched; when the
record reports no capture, both ledgers are untouched. -/
theorem capture_ledger_bookkeeping {B : Type} (r : Rules B) (s : AppState B)
    (m : MoveInput) (mv : MoveRec) (b : B)
    (h : r.move s.game.board m = some (mv, b)) :
    (∀ ct, mv.captured = some ct →
        (mv.color = PieceColor.w →
          (makeMove r s m).2.capturedByWhite =
            s.capturedByWhite ++ [{ type := ct, color := PieceColor.b }] ∧
          (makeMove r s m).2.capturedByBlack = s.capturedByBlack) ∧
        (mv.color = PieceColor.b →
          (makeMove r s m).2.capturedByBlack =
            s.capturedByBlack ++ [{ type := ct, color := PieceColor.w }] ∧
          (makeMove r s m).2.capturedByWhite = s.capturedByWhite)) ∧
    (mv.captured = none →
        (makeMove r s m).2.capturedByWhite = s.capturedByWhite ∧
        (makeMove r s m).2.capturedByBlack = s.capturedByBlack) := by
  rw [makeMove_of_some r s m mv b h]
  constructor
  · intro ct hct
    constructor
    · intro hcol
      simp [handleCapture, hct, hcol]
    · intro hcol
      have hne : mv.color ≠ PieceColor.w := by
        rw [hcol]; intro hcontra; cases hcontra
      simp [handleCapture, hct, hne]
  · intro hct
    simp [handleCapture, hct]

theorem capture_ledger_bookkeeping_witness :
    demoCap.move (initState demoCap).game.board (MoveInput.sanStr "exd5") =
      some ({ fromSq := "", toSq := "", color := PieceColor.w,
              captured := some PieceType.p, san := "exd5" }, ["exd5"]) ∧
    (makeMove demoCap (initState demoCap) (MoveInput.sanStr "exd5")).2.capturedByWhite =
      (initState demoCap).capturedByWhite ++
        [{ type := PieceType.p, color := PieceColor.b }] ∧
    (makeMove demoCap (initState demoCap) (MoveInput.sanStr "exd5")).2.capturedByBlack =
      (initState demoCap).capturedByBlack :=
  ⟨by decide,
   ((capture_ledger_bookkeeping demoCap (initState demoCap)
      (MoveInput.sanStr "exd5")
      { fromSq := "", toSq := "", color := PieceColor.w,
        captured := some PieceType.p, san := "exd5" } ["exd5"]
      (by decide)).1 PieceType.p rfl).1 rfl⟩

/-- C9 counterexample.  The claim quotes the surfaced analysis text as
"Error communicating with AI"; the code sets
"Error communicating with AI." (trailing period), so the claim's exact text
never appears: at a concrete non-terminal state with a failing AI call the
analysis text is the period-terminated string and differs from the quoted
one. -/
theorem aiFailure_text_mismatch :
    (triggerAiMove demoPlain (initState demoPlain) AiOutcome.failure 0).aiAnalysis =
      some "Error communicating with AI." ∧
    (some "Error communicating with AI." : Option String) ≠
      some "Error communicating with AI" := by
  refine ⟨rfl, by decide⟩

/-- C9 amended.  A service/network failure thrown during the awaited AI call
is caught by the orchestration's catch block: the whole user action amounts
to setting the analysis text to "Error communicating with AI." and leaving
every other field — Position, history, captured ledgers, selection, and the
thinking flag (cleared back to false, never stuck true) — as it was. -/
theorem aiFailure_caught_at_boundary {B : Type} (r : Rules B) (s : AppState B)
    (i : Nat) (hover : r.isGameOver s.game.board = false)
    (hthink : s.isAiThinking = false) :
    triggerAiMove r s AiOutcome.failure i =
      { s with aiAnalysis := some "Error communicating with AI." } := by
  cases s with
  | mk game sel valid thinking analysis cw cb =>
      simp_all [triggerAiMove]

theorem aiFailure_caught_at_boundary_witness :
    demoPlain.isGameOver (initState demoPlain).game.board = false ∧
    (initState demoPlain).isAiThinking = false ∧
    triggerAiMove demoPlain (initState demoPlain) AiOutcome.failure 0 =
      { initState demoPlain with
        aiAnalysis := some "Error communicating with AI." } :=
  ⟨rfl, rfl,
   aiFailure_caught_at_boundary demoPlain (initState demoPlain) 0 rfl rfl⟩

/-- C10.  When the advisor's result carries an empty move string, the
orchestration takes the else-branch at line 117: no move is attempted (no
suggestion, no fallback), so Position, history, ledgers, selection and the
valid-move list stay exactly as they were; the thinking flag ends cleared
(equal to its required-false value at entry) and only the analysis text
changes, to the no-move notice. -/
theorem aiEmptyMove_frame {B : Type} (r : Rules B) (s : AppState B)
    (e : String) (i : Nat) (hover : r.isGameOver s.game.board = false)
    (hthink : s.isAiThinking = false) :
    triggerAiMove r s (AiOutcome.success { move := "", explanation := e }) i =
      { s with aiAnalysis := some "AI couldn't find a move." } := by
  cases s with
  | mk game sel valid thinking analysis cw cb =>
      simp_all [triggerAiMove]

theorem aiEmptyMove_frame_witness :
    demoPlain.isGameOver (initState demoPlain).game.board = false ∧
    (initState demoPlain).isAiThinking = false ∧
    triggerAiMove demoPlain (initState demoPlain)
        (AiOutcome.success { move := "", explanation := "nothing" }) 0 =
      { initState demoPlain with
        aiAnalysis := some "AI couldn't find a move." } :=
  ⟨rfl, rfl,
   aiEmptyMove_frame demoPlain (initState demoPlain) "nothing" 0 rfl rfl⟩

/-- C5.  Non-terminal position, advisor returns a non-empty move string the
engine rejects: the orchestration sets the fallback notice, draws an index
into the engine's legal-move list (`randIdx % length` ranges over exactly
the indices `Math.floor(Math.random() * length)` can produce, so "uniformly
at random" is modelled by quantifying over the index), applies that legal
move through the engine — the resulting Position is an engine-produced,
hence legal, board — and clears the thinking flag.  When the legal-move list
is empty, no move is applied and the state is otherwise untouched.  The
`hsound` hypothesis is engine faithfulness: chess.js's `moves()` returns SAN
strings its own `move()` accepts. -/
theorem aiFallback_applies_legal_move {B : Type} (r : Rules B) (s : AppState B)
    (resp : AIMoveResponse) (randIdx : Nat)
    (hover : r.isGameOver s.game.board = false)
    (hthink : s.isAiThinking = false)
    (hne : resp.move ≠ "")
    (hbad : r.move s.game.board (MoveInput.sanStr resp.move) = none)
    (hsound : ∀ x ∈ r.movesSan s.game.board,
        r.move s.game.board (MoveInput.sanStr x) ≠ none) :
    (∀ hpos : 0 < (r.movesSan s.game.board).length,
        ∃ mv b,
          r.move s.game.board (MoveInput.sanStr ((r.movesSan s.game.board).get
              ⟨randIdx % (r.movesSan s.game.board).length,
               Nat.mod_lt randIdx hpos⟩)) = some (mv, b) ∧
          (triggerAiMove r s (AiOutcome.success resp) randIdx).game.board = b ∧
          (triggerAiMove r s (AiOutcome.success resp) randIdx).aiAnalysis =
            some "AI suggested an illegal move. Fallback logic triggered." ∧
          (triggerAiMove r s (AiOutcome.success resp) randIdx).isAiThinking =
            false) ∧
    ((r.movesSan s.game.board).length = 0 →
        triggerAiMove r s (AiOutcome.success resp) randIdx =
          { s with
            aiAnalysis :=
              some "AI suggested an illegal move. Fallback logic triggered.",
            isAiThinking := false }) := by
  constructor
  · intro hpos
    obtain ⟨⟨mv, b⟩, hp⟩ := Option.ne_none_iff_exists'.mp
      (hsound ((r.movesSan s.game.board).get
          ⟨randIdx % (r.movesSan s.game.board).length, Nat.mod_lt randIdx hpos⟩)
        (List.get_mem _ _ _))
    refine ⟨mv, b, hp, ?_, ?_, ?_⟩ <;>
      cases s with
      | mk game sel valid thinking analysis cw cb =>
          simp_all [triggerAiMove, makeMove, engMove, engFromFen]
  · intro hlen
    cases s with
    | mk game sel valid thinking analysis cw cb =>
        simp_all [triggerAiMove, makeMove, engMove, engFromFen]

theorem aiFallback_applies_legal_move_witness :
    demoPlain.isGameOver (initState demoPlain).game.board = false ∧
    (initState demoPlain).isAiThinking = false ∧
    ("Zz9" : String) ≠ "" ∧
    demoPlain.move (initState demoPlain).game.board
      (MoveInput.sanStr "Zz9") = none ∧
    (∀ x ∈ demoPlain.movesSan (initState demoPlain).game.board,
        demoPlain.move (initState demoPlain).game.board
          (MoveInput.sanStr x) ≠ none) ∧
    (∃ mv b,
        demoPlain.move (initState demoPlain).game.board
          (MoveInput.sanStr "Nf3") = some (mv, b) ∧
        (triggerAiMove demoPlain (initState demoPlain)
          (AiOutcome.success { move := "Zz9", explanation := "bad" }) 3).game.board
          = b ∧
        (triggerAiMove demoPlain (initState demoPlain)
          (AiOutcome.success { move := "Zz9", explanation := "bad" }) 3).aiAnalysis
          = some "AI suggested an illegal move. Fallback logic triggered." ∧
        (triggerAiMove demoPlain (initState demoPlain)
          (AiOutcome.success { move := "Zz9", explanation := "bad" }) 3).isAiThinking
          = false) :=
  ⟨rfl, rfl, by decide, by decide, by decide,
   (aiFallback_applies_legal_move demoPlain (initState demoPlain)
      { move := "Zz9", explanation := "bad" } 3 rfl rfl (by decide) (by decide)
      (by decide)).1 (by decide)⟩

/-! ### The selection invariant -/

/-- The spec's selection invariant: the selection is non-null only when the
selected square holds a piece belonging to the side to move in the current
Position. -/
def SelInv {B : Type} (r : Rules B) (s : AppState B) : Prop :=
  ∀ sq, s.selectedSquare = some sq →
    ∃ p, r.get s.game.board sq = some p ∧ p.color = r.turn s.game.board

theorem selInv_of_none {B : Type} (r : Rules B) (s : AppState B)
    (h : s.selectedSquare = none) : SelInv r s := by
  intro sq hsq
  rw [h] at hsq
  exact Option.noConfusion hsq

theorem makeMove_false_eq {B : Type} (r : Rules B) (s : AppState B)
    (m : MoveInput) (s1 : AppState B) (h : makeMove r s m = (false, s1)) :
    s1 = s := by
  cases hm : r.move s.game.board m with
  | none =>
      rw [makeMove_of_none r s m hm] at h
      exact (Prod.mk.injEq _ _ _ _ ▸ h).2.symm
  | some p =>
      obtain ⟨mv, b⟩ := p
      rw [makeMove_of_some r s m mv b hm] at h
      exact absurd (Prod.mk.injEq _ _ _ _ ▸ h).1 (by simp)

theorem makeMove_snd_cases {B : Type} (r : Rules B) (s : AppState B)
    (m : MoveInput) :
    (makeMove r s m).2.selectedSquare = none ∨ (makeMove r s m).2 = s := by
  cases hm : r.move s.game.board m with
  | none =>
      right
      rw [makeMove_of_none r s m hm]
  | some p =>
      obtain ⟨mv, b⟩ := p
      left
      rw [makeMove_of_some r s m mv b hm]

theorem selectPhase_game {B : Type} (r : Rules B) (s : AppState B)
    (sq : String) : (selectPhase r s sq).game = s.game := by
  unfold selectPhase
  split
  · split <;> rfl
  · rfl

theorem selectPhase_selInv {B : Type} (r : Rules B) (s : AppState B)
    (sq : String) : SelInv r (selectPhase r s sq) := by
  intro x hx
  rw [selectPhase_game]
  unfold selectPhase at hx
  cases hg : r.get s.game.board sq with
  | none =>
      simp only [hg] at hx
      exact Option.noConfusion hx
  | some piece =>
      simp only [hg] at hx
      by_cases hc : piece.color = r.turn s.game.board
      · rw [if_pos hc] at hx
        have hxx : sq = x := Option.some.inj hx
        exact ⟨piece, hxx ▸ hg, hc⟩
      · rw [if_neg hc] at hx
        exact Option.noConfusion hx

theorem makeMove_selInv {B : Type} (r : Rules B) (s : AppState B)
    (m : MoveInput) (hs : SelInv r s) : SelInv r ((makeMove r s m).2) := by
  cases makeMove_snd_cases r s m with
  | inl h => exact selInv_of_none r _ h
  | inr h => rw [h]; exact hs

theorem onSquareClick_selInv {B : Type} (r : Rules B) (s : AppState B)
    (sq : String) (hs : SelInv r s) : SelInv r (onSquareClick r s sq) := by
  unfold onSquareClick
  split
  · exact hs
  · cases hsel : s.selectedSquare with
    | none =>
        simp only [hsel]
        exact selectPhase_selInv r s sq
    | some sel =>
        simp only [hsel]
        by_cases he : sel = sq
        · rw [if_pos he]
          exact selInv_of_none r _ rfl
        · rw [if_neg he]
          rcases hmk : makeMove r s (MoveInput.coords sel sq (some "q")) with
            ⟨ok, s1⟩
          cases ok with
          | true =>
              show SelInv r s1
              have h2 : s1 = (makeMove r s (MoveInput.coords sel sq (some "q"))).2 := by
                rw [hmk]
              rw [h2]
              exact makeMove_selInv r s _ hs
          | false =>
              show SelInv r (selectPhase r s1 sq)
              rw [makeMove_false_eq r s _ s1 hmk]
              exact selectPhase_selInv r s sq

theorem undoMove_selInv {B : Type} (r : Rules B) (s : AppState B)
    (hs : SelInv r s) : SelInv r (undoMove s) := hs

theorem resetGame_selInv {B : Type} (r : Rules B) (s : AppState B) :
    SelInv r (resetGame r s) :=
  selInv_of_none r _ rfl

theorem selInv_makeMove_update {B : Type} (r : Rules B) (s0 : AppState B)
    (m : MoveInput) (hs0 : SelInv r s0) :
    SelInv r { (makeMove r s0 m).2 with isAiThinking := false } := by
  cases makeMove_snd_cases r s0 m with
  | inl h => exact selInv_of_none r _ h
  | inr h =>
      rw [h]
      exact fun x hx => hs0 x hx

theorem triggerAiMove_selInv {B : Type} (r : Rules B) (s : AppState B)
    (o : AiOutcome) (i : Nat) (hs : SelInv r s) :
    SelInv r (triggerAiMove r s o i) := by
  unfold triggerAiMove
  split
  · exact hs
  · split
    · exact fun x hx => hs x hx
    · rename_i resp
      dsimp only
      split
      · rcases hmk : makeMove r { s with isAiThinking := true, aiAnalysis := some resp.explanation } (MoveInput.sanStr resp.move) with ⟨ok, s3⟩
        cases ok with
        | true =>
            have h2 : (makeMove r { s with isAiThinking := true, aiAnalysis := some resp.explanation } (MoveInput.sanStr resp.move)).2 = s3 := by
              rw [hmk]
            have hres := selInv_makeMove_update r
              { s with isAiThinking := true, aiAnalysis := some resp.explanation }
              (MoveInput.sanStr resp.move) (fun x hx => hs x hx)
            rw [h2] at hres
            exact hres
        | false =>
            have h3 := makeMove_false_eq r
              { s with isAiThinking := true, aiAnalysis := some resp.explanation }
              (MoveInput.sanStr resp.move) s3 hmk
            subst h3
            dsimp only
            split
            · exact selInv_makeMove_update r _ _ (fun x hx => hs x hx)
            · exact fun x hx => hs x hx
      · exact fun x hx => hs x hx

/-- C8.  The selection invariant — the selection is non-null only when the
selected square holds a piece of the side to move — holds in the initial
state and is preserved by every Controller operation: square clicks, move
application, undo, reset, and the AI-move orchestration. -/
theorem selection_invariant_all_ops {B : Type} (r : Rules B) (s : AppState B)
    (hs : SelInv r s) :
    SelInv r (initState r) ∧
    (∀ sq, SelInv r (onSquareClick r s sq)) ∧
    (∀ m, SelInv r ((makeMove r s m).2)) ∧
    SelInv r (undoMove s) ∧
    SelInv r (resetGame r s) ∧
    (∀ o i, SelInv r (triggerAiMove r s o i)) :=
  ⟨selInv_of_none r _ rfl,
   fun sq => onSquareClick_selInv r s sq hs,
   fun m => makeMove_selInv r s m hs,
   undoMove_selInv r s hs,
   resetGame_selInv r s,
   fun o i => triggerAiMove_selInv r s o i hs⟩

theorem selection_invariant_all_ops_witness :
    SelInv demoPlain (onSquareClick demoPlain (initState demoPlain) "e2") ∧
    SelInv demoPlain
      ((makeMove demoPlain (initState demoPlain) (MoveInput.sanStr "e4")).2) ∧
    SelInv demoPlain (undoMove (initState demoPlain)) ∧
    SelInv demoPlain (resetGame demoPlain (initState demoPlain)) ∧
    SelInv demoPlain
      (triggerAiMove demoPlain (initState demoPlain) AiOutcome.failure 0) :=
  ⟨(selection_invariant_all_ops demoPlain (initState demoPlain)
      (fun _ hx => Option.noConfusion hx)).2.1 "e2",
   (selection_invariant_all_ops demoPlain (initState demoPlain)
      (fun _ hx => Option.noConfusion hx)).2.2.1 (MoveInput.sanStr "e4"),
   (selection_invariant_all_ops demoPlain (initState demoPlain)
      (fun _ hx => Option.noConfusion hx)).2.2.2.1,
   (selection_invariant_all_ops demoPlain (initState demoPlain)
      (fun _ hx => Option.noConfusion hx)).2.2.2.2.1,
   (selection_invariant_all_ops demoPlain (initState demoPlain)
      (fun _ hx => Option.noConfusion hx)).2.2.2.2.2 AiOutcome.failure 0⟩

end Classy
